import Mathlib

/-!
Verification of the dev-killer execution engine against its design notes.

Each Rust function that a property mentions is translated into an executable
Lean definition operating on the same data (strings as `String`, JSON values
and filesystem results as opaque parameters).  Machine effects that the
control flow observes — the bounded event channel, the approval reply, the
filesystem's `canonicalize` — are passed in explicitly as oracles, so every
definition stays a total function.
String case conversion is modelled on the ASCII range (the repository only
compares against ASCII literals).
-/

namespace DevKiller

/-! ## String primitives (models of the Rust `str` methods used by the code) -/

/-- Model of `char::is_whitespace` (the Unicode white-space list used by Rust). -/
def rustIsWhitespace (c : Char) : Bool :=
  let n := c.toNat
  (9 ≤ n && n ≤ 13) || n == 32 || n == 133 || n == 160 || n == 0x1680 ||
  (0x2000 ≤ n && n ≤ 0x200A) || n == 0x2028 || n == 0x2029 ||
  n == 0x202F || n == 0x205F || n == 0x3000

/-- ASCII lower-casing of one character (model of `char::to_lowercase` on ASCII). -/
def asciiLowerChar (c : Char) : Char :=
  if 65 ≤ c.toNat && c.toNat ≤ 90 then Char.ofNat (c.toNat + 32) else c

/-- ASCII upper-casing of one character (model of `char::to_uppercase` on ASCII). -/
def asciiUpperChar (c : Char) : Char :=
  if 97 ≤ c.toNat && c.toNat ≤ 122 then Char.ofNat (c.toNat - 32) else c

/-- Model of `str::to_lowercase` (ASCII range). -/
def rustToLowercase (s : String) : String :=
  String.mk (s.data.map asciiLowerChar)

/-- Model of `str::to_uppercase` (ASCII range). -/
def rustToUppercase (s : String) : String :=
  String.mk (s.data.map asciiUpperChar)

/-- Model of `str::trim`: strip whitespace from both ends. -/
def rustTrim (s : String) : String :=
  String.mk (((s.data.dropWhile rustIsWhitespace).reverse.dropWhile rustIsWhitespace).reverse)

/-- Split a character list at every occurrence of `sep` (model of `str::split`). -/
def splitChars (sep : Char) : List Char → List (List Char)
  | [] => [[]]
  | c :: rest =>
    let r := splitChars sep rest
    if c == sep then [] :: r
    else
      match r with
      | [] => [[c]]
      | h :: t => (c :: h) :: t

/-- Strip one trailing carriage return (the `\r` of a `\r\n` line ending). -/
def stripTrailingCR (l : List Char) : List Char :=
  if l.getLast? == some '\r' then l.dropLast else l

/-- Helper for `rustLines`: every piece except the last was followed by a
newline, so gets its trailing carriage return stripped; a final empty piece
(text ended with a newline) yields no line. -/
def rustLinesAux : List (List Char) → List (List Char)
  | [] => []
  | [last] => if last.isEmpty then [] else [last]
  | piece :: rest => stripTrailingCR piece :: rustLinesAux rest

/-- Model of `str::lines`: split at `\n` or `\r\n`; the final line ending is optional. -/
def rustLines (s : String) : List String :=
  (rustLinesAux (splitChars '\n' s.data)).map (fun l => String.mk l)

/-- Does `pat` occur as a contiguous sublist of the list? -/
def charsContainsAux (pat : List Char) : List Char → Bool
  | [] => pat.isEmpty
  | c :: rest => pat.isPrefixOf (c :: rest) || charsContainsAux pat rest

/-- Model of `str::contains` with a string pattern (substring search). -/
def strContains (s pat : String) : Bool :=
  charsContainsAux pat.data s.data

/-- Model of `str::starts_with` with a string pattern. -/
def strStartsWith (s pat : String) : Bool :=
  pat.data.isPrefixOf s.data

/-- Model of `str::ends_with` with a string pattern. -/
def strEndsWith (s pat : String) : Bool :=
  pat.data.isSuffixOf s.data

/-! ## Review verdict parsing (`pipeline.rs::is_review_approved`) -/

/-- Loop body of `is_review_approved`: scan lines in order; the first line
whose trimmed, upper-cased form is exactly a verdict marker decides. -/
def reviewVerdictScan : List String → Option Bool
  | [] => none
  | line :: rest =>
    let trimmed := rustToUppercase (rustTrim line)
    if trimmed == "VERDICT: APPROVED" then some true
    else if trimmed == "VERDICT: NEEDS_WORK" then some false
    else reviewVerdictScan rest

/-- Translation of `is_review_approved` (pipeline.rs): scan each line for an
exact verdict marker; if none is found, fall back to the substring heuristic
over the lower-cased text. -/
def is_review_approved (review : String) : Bool :=
  match reviewVerdictScan (rustLines review) with
  | some b => b
  | none =>
    let lower := rustToLowercase review
    strContains lower "approved" && !(strContains lower "needs_work")

/-- Reference definition written from the specification's words: the first
line that, after trimming and case-folding, reads exactly a marker decides;
with no marker line, approved iff the lowercase text contains "approved" and
does not contain "needs_work". -/
def lineMarkerSpec (line : String) : Option Bool :=
  let t := rustToUppercase (rustTrim line)
  if t == "VERDICT: APPROVED" then some true
  else if t == "VERDICT: NEEDS_WORK" then some false
  else none

/-- Reference verdict function assembled from the specification sentence. -/
def reviewVerdictSpec (review : String) : Bool :=
  match (rustLines review).findSome? lineMarkerSpec with
  | some b => b
  | none =>
    strContains (rustToLowercase review) "approved" &&
      !(strContains (rustToLowercase review) "needs_work")

theorem reviewVerdictScan_eq_findSome (lines : List String) :
    reviewVerdictScan lines = lines.findSome? lineMarkerSpec := by
  induction lines with
  | nil => rfl
  | cons line rest ih =>
    simp only [reviewVerdictScan, List.findSome?_cons, lineMarkerSpec]
    by_cases h1 : rustToUppercase (rustTrim line) == "VERDICT: APPROVED"
    · simp [h1]
    · by_cases h2 : rustToUppercase (rustTrim line) == "VERDICT: NEEDS_WORK"
      · simp [h1, h2]
      · simp [h1, h2, ih]

/-! ## Path components (model of `std::path::Path::components`) -/

/-- One component of a path, as in `std::path::Component`. -/
inductive PathComponent where
  | rootDir
  | curDir
  | parentDir
  | normal (s : String)
deriving DecidableEq, BEq, Repr

/-- Classify one piece between separators. Empty pieces disappear; a lone
dot elsewhere than at the very start is normalized away by the caller. -/
def pieceToComponent (p : List Char) : Option PathComponent :=
  if p.isEmpty then none
  else if p == ['.'] then none
  else if p == ['.', '.'] then some PathComponent.parentDir
  else some (PathComponent.normal (String.mk p))

/-- Model of `Path::components` for Unix-style paths: a leading separator
yields `rootDir`, a leading lone dot yields `curDir`, empty pieces and
non-leading lone dots are normalized away, and `..` stays `parentDir`. -/
def rustComponents (path : String) : List PathComponent :=
  let pieces := splitChars '/' path.data
  match pieces with
  | [] => []
  | first :: rest =>
    if first.isEmpty && !rest.isEmpty then
      PathComponent.rootDir :: rest.filterMap pieceToComponent
    else if first == ['.'] then
      PathComponent.curDir :: rest.filterMap pieceToComponent
    else
      (first :: rest).filterMap pieceToComponent

/-- Render a component back to text (used to model `Path::parent` as a string). -/
def componentText : PathComponent → String
  | PathComponent.rootDir => ""
  | PathComponent.curDir => "."
  | PathComponent.parentDir => ".."
  | PathComponent.normal s => s

/-- Render a component list back to a path string. -/
def renderComponents : List PathComponent → String
  | [] => ""
  | PathComponent.rootDir :: rest =>
    "/" ++ String.intercalate "/" (rest.map componentText)
  | comps => String.intercalate "/" (comps.map componentText)

/-- Model of `Path::file_name`: the last component when it is a normal one. -/
def rustFileName (path : String) : Option String :=
  match (rustComponents path).getLast? with
  | some (PathComponent.normal s) => some s
  | _ => none

/-- Model of `Path::parent`: the path without its last component
(`none` for an empty or root-only path). -/
def rustParent (path : String) : Option String :=
  match rustComponents path with
  | [] => none
  | comps => some (renderComponents comps.dropLast)

/-- Model of `Path::starts_with`, which compares whole components. -/
def pathStartsWith (p base : String) : Bool :=
  (rustComponents base).isPrefixOf (rustComponents p)

/-! ## Policy and sandbox path validation (`config::Policy`, `tools/file.rs`) -/

/-- Security policy configuration (`config/policy.rs`); `Policy::default()`
has all four lists empty. -/
structure Policy where
  allow_paths : List String := []
  deny_paths : List String := []
  allow_commands : List String := []
  deny_commands : List String := []

/-- The filesystem and process environment that `validate_path` consults:
`canonicalize` models `std::fs::canonicalize` (`none` = error) and `home`
models `std::env::var("HOME")`. -/
structure FsOracle where
  canonicalize : String → Option String
  home : Option String

/-- Model of the canonicalization step of `validate_path`: canonicalize the
path; if that fails (the file does not exist yet), canonicalize the parent
directory (or `.` when the parent renders empty) and re-append the filename. -/
def canonicalizeOrFallback (fs : FsOracle) (path : String) : Option String :=
  match fs.canonicalize path with
  | some c => some c
  | none =>
    match rustParent path, rustFileName path with
    | some parent, some fname =>
      let parentPath := if parent == "" then "." else parent
      (fs.canonicalize parentPath).map (fun cp => cp ++ "/" ++ fname)
    | _, _ => none

/-- Translation of `check_hardcoded_path_denials` (tools/file.rs): returns the
first applicable denial message, or `none` when the path is acceptable. -/
def check_hardcoded_path_denials (home : Option String) (canonical : String) : Option String :=
  if strStartsWith canonical "/etc/" || canonical == "/etc" ||
      strStartsWith canonical "/private/etc/" || canonical == "/private/etc" then
    some "access to /etc is not allowed"
  else
    let homeDenial :=
      match home with
      | none => none
      | some h =>
        if pathStartsWith canonical (h ++ "/.ssh") then
          some "access to ~/.ssh is not allowed"
        else if pathStartsWith canonical (h ++ "/.gnupg") then
          some "access to ~/.gnupg is not allowed"
        else if pathStartsWith canonical (h ++ "/.aws") then
          some "access to ~/.aws is not allowed"
        else if pathStartsWith canonical (h ++ "/.config") &&
            !pathStartsWith canonical (h ++ "/.config/dev-killer") then
          some "access to ~/.config is not allowed (except ~/.config/dev-killer/)"
        else none
    match homeDenial with
    | some msg => some msg
    | none =>
      if strContains canonical "/.git/" || strEndsWith canonical "/.git" then
        some "access to .git directories is not allowed"
      else if strStartsWith canonical "/proc/" || canonical == "/proc" then
        some "access to /proc is not allowed"
      else if strStartsWith canonical "/sys/" || canonical == "/sys" then
        some "access to /sys is not allowed"
      else if strStartsWith canonical "/dev/" || canonical == "/dev" then
        some "access to /dev is not allowed"
      else if strStartsWith canonical "/var/log/" || canonical == "/var/log" then
        some "access to /var/log is not allowed"
      else
        match rustFileName canonical with
        | some name =>
          if name == ".env" || strStartsWith name ".env." then
            some "access to .env files is not allowed"
          else none
        | none => none

/-- Translation of `validate_path` (tools/file.rs): reject `..` components
before touching the filesystem, then canonicalize (with the parent-directory
fallback), then apply the policy allow list, the policy deny list, and the
hardcoded sensitive-location denials, in that order. -/
def validate_path (fs : FsOracle) (path : String) (policy : Policy) : Except String String :=
  if (rustComponents path).contains PathComponent.parentDir then
    Except.error "path traversal detected: '..' is not allowed in paths"
  else
    match canonicalizeOrFallback fs path with
    | none => Except.error ("failed to resolve path: " ++ path)
    | some canonical =>
      if policy.allow_paths.any (fun allowed => strStartsWith canonical allowed) then
        Except.ok canonical
      else
        match policy.deny_paths.find? (fun denied => strStartsWith canonical denied) with
        | some denied => Except.error ("access to " ++ denied ++ " is denied by policy")
        | none =>
          match check_hardcoded_path_denials fs.home canonical with
          | some msg => Except.error msg
          | none => Except.ok canonical

/-! ## Shell command validation (`tools/shell.rs`) -/

/-- The fixed destructive-pattern deny list of `validate_command`. -/
def dangerous_patterns : List String :=
  ["rm -rf /", "rm -rf /*", "rm -rf ~", "rm -rf $HOME",
   ":()\x7b:|:&\x7d;:",
   "mkfs.", "dd if=/dev/zero", "dd if=/dev/random", "> /dev/sda",
   "chmod -R 777 /", "chown -R", "sudo rm", "sudo dd", "sudo mkfs"]

/-- The sensitive path prefixes blocked by `validate_sensitive_paths`. -/
def sensitive_paths : List String :=
  ["/etc/", "/private/etc/", "/proc/", "/sys/", "/dev/", "/var/log/",
   "~/.ssh", "$HOME/.ssh", "~/.gnupg", "$HOME/.gnupg",
   "~/.aws", "$HOME/.aws", "~/.config", "$HOME/.config"]

/-- The file-reading command prefixes recognised by `validate_sensitive_paths`. -/
def read_commands : List String :=
  ["cat ", "head ", "tail ", "less ", "more ", "vim ", "nano ", "vi "]

/-- Translation of `validate_sensitive_paths` (tools/shell.rs): deny when the
command mentions a sensitive path together with a file-reading verb or an
input redirection from it, and deny file-reading verbs combined with `.env`. -/
def validate_sensitive_paths (command : String) : Except String Unit :=
  match sensitive_paths.find? (fun sensitive =>
      strContains command sensitive &&
        (read_commands.any (fun rc => strContains command rc) ||
          strContains command ("< " ++ sensitive) ||
          strContains command ("<" ++ sensitive))) with
  | some sensitive =>
    Except.error ("access to sensitive path " ++ sensitive ++ " via shell is not allowed")
  | none =>
    if strContains command ".env" &&
        read_commands.any (fun rc => strContains command rc) then
      Except.error "access to .env files via shell is not allowed"
    else
      Except.ok ()

/-- Translation of `validate_command` (tools/shell.rs): check the policy deny
list (case-insensitively), then the fixed destructive-pattern list, then the
sensitive-path heuristic. -/
def validate_command (command : String) (policy : Policy) : Except String Unit :=
  let command_lower := rustToLowercase command
  match policy.deny_commands.find? (fun denied =>
      strContains command_lower (rustToLowercase denied)) with
  | some denied => Except.error ("command '" ++ denied ++ "' is denied by policy")
  | none =>
    match dangerous_patterns.find? (fun pattern =>
        strContains command_lower (rustToLowercase pattern)) with
    | some pattern => Except.error ("command contains dangerous pattern: " ++ pattern)
    | none => validate_sensitive_paths command

/-! ## Approval gate (`event.rs`) -/

/-- JSON argument payloads are opaque to the control flow modelled here. -/
def JsonValue := String

/-- How tool calls should be approved (`event.rs::ApprovalMode`). -/
inductive ApprovalMode where
  | AutoApprove
  | ApproveDangerous
  | ApproveAll
  | Custom (f : String → JsonValue → Bool)

/-- Tools considered dangerous for the `ApproveDangerous` mode. -/
def DANGEROUS_TOOLS : List String := ["shell", "write_file", "edit_file"]

/-- Result of a tool approval check (`event.rs::ApprovalResult`). -/
inductive ApprovalResult where
  | Approved
  | Denied (reason : String)
deriving BEq

/-- What the consumer does with one approval request: the reply sent through
the oneshot slot, the slot being dropped, or the 60-second timeout elapsing. -/
inductive ReplyOutcome where
  | approve
  | approveAlways
  | deny (reason : String)
  | dropped
  | timedOut

/-- The environment of one `request_tool_approval` call: whether the channel
send reaches a live receiver, and how the consumer answers. -/
structure ApprovalEnv where
  sendOk : Bool
  reply : ReplyOutcome

/-- The state a cloned `EventSender` carries: whether an event channel is
attached (`inner.is_some()`), the configured mode, and the shared
always-approved tool-name set. -/
structure EventSenderState where
  active : Bool
  mode : ApprovalMode
  always_approved : List String

/-- Insert into the always-approved set (`HashSet::insert`). -/
def insertApproved (name : String) (l : List String) : List String :=
  if l.contains name then l else name :: l

/-- Whether the configured mode asks for this call (the `needs_approval`
match inside `request_tool_approval`). -/
def needsApproval (mode : ApprovalMode) (tool_name : String) (arguments : JsonValue) : Bool :=
  match mode with
  | ApprovalMode.AutoApprove => false
  | ApprovalMode.ApproveDangerous => DANGEROUS_TOOLS.contains tool_name
  | ApprovalMode.ApproveAll => true
  | ApprovalMode.Custom f => !(f tool_name arguments)

/-- Outcome of one approval check: the decision, the updated sender state,
and whether an approval-request event was emitted to the consumer. -/
structure ApprovalOutcome where
  result : ApprovalResult
  state : EventSenderState
  requested : Bool

/-- Translation of `EventSender::request_tool_approval` (event.rs): consult
the always-approved set, then the mode; auto-approve when no channel is
attached or the channel send fails (receiver dropped); otherwise decide from
the consumer's reply, where a dropped reply slot or a timeout denies. -/
def request_tool_approval (s : EventSenderState) (tool_name : String)
    (arguments : JsonValue) (env : ApprovalEnv) : ApprovalOutcome :=
  if s.always_approved.contains tool_name then
    { result := ApprovalResult.Approved, state := s, requested := false }
  else if !(needsApproval s.mode tool_name arguments) then
    { result := ApprovalResult.Approved, state := s, requested := false }
  else if !s.active then
    { result := ApprovalResult.Approved, state := s, requested := false }
  else if !env.sendOk then
    { result := ApprovalResult.Approved, state := s, requested := true }
  else
    match env.reply with
    | ReplyOutcome.approve =>
      { result := ApprovalResult.Approved, state := s, requested := true }
    | ReplyOutcome.approveAlways =>
      { result := ApprovalResult.Approved,
        state := { s with always_approved := insertApproved tool_name s.always_approved },
        requested := true }
    | ReplyOutcome.deny reason =>
      { result := ApprovalResult.Denied
          ("Tool '" ++ tool_name ++ "' was denied by the user: " ++ reason),
        state := s, requested := true }
    | ReplyOutcome.dropped =>
      { result := ApprovalResult.Denied
          ("Tool '" ++ tool_name ++ "' was denied: approval response not received"),
        state := s, requested := true }
    | ReplyOutcome.timedOut =>
      { result := ApprovalResult.Denied
          ("Tool '" ++ tool_name ++ "' was denied: approval timed out after 60s"),
        state := s, requested := true }

/-! ## Tool registry and the agent runner (`tools/registry.rs`, `agents/runner.rs`) -/

/-- A tool capability: name, description, parameter schema and execution
entry point (`tools::Tool`); execution returns text or an error. -/
structure Tool where
  name : String
  description : String
  schema : JsonValue
  exec : JsonValue → Except String String

/-- The tool registry, keyed by name (`ToolRegistry`). -/
def ToolRegistry := List Tool

/-- Model of `ToolRegistry::get`. -/
def registryGet (tools : ToolRegistry) (name : String) : Option Tool :=
  tools.find? (fun t => t.name == name)

/-- Model of `ToolRegistry::all`. -/
def registryAll (tools : ToolRegistry) : List Tool := tools

/-- A tool call requested by the model (`llm::ToolCall`). -/
structure ToolCall where
  id : String
  name : String
  arguments : JsonValue

/-- The tool references presented to the model each iteration: the full
registry, filtered by the allow-list when one is given (agents/runner.rs). -/
def visibleTools (tools : ToolRegistry) (allowed_tools : Option (List String)) : List Tool :=
  match allowed_tools with
  | some allowed => (registryAll tools).filter (fun t => allowed.contains t.name)
  | none => registryAll tools

/-- Outcome of `execute_with_approval`: the result text fed back to the
model, the updated sender state, whether some tool's `execute` ran, and
whether the approval gate was consulted. -/
structure ExecOutcome where
  result : String
  state : EventSenderState
  executed : Bool
  approvalConsulted : Bool

/-- Translation of `execute_with_approval` (agents/runner.rs): reject a call
naming a tool outside the allow-list before consulting approval; on denial
return the denial text; otherwise execute the tool, converting an execution
error into an `Error:` text and an unknown name into an unknown-tool text. -/
def execute_with_approval (tools : ToolRegistry) (tool_call : ToolCall)
    (allowed_tools : Option (List String)) (s : EventSenderState)
    (env : ApprovalEnv) : ExecOutcome :=
  if (match allowed_tools with
      | some allowed => !(allowed.contains tool_call.name)
      | none => false) then
    { result := "Tool '" ++ tool_call.name ++ "' is not available to this agent",
      state := s, executed := false, approvalConsulted := false }
  else
    let approval := request_tool_approval s tool_call.name tool_call.arguments env
    match approval.result with
    | ApprovalResult.Denied reason =>
      { result := reason, state := approval.state, executed := false,
        approvalConsulted := true }
    | ApprovalResult.Approved =>
      match registryGet tools tool_call.name with
      | some tool =>
        match tool.exec tool_call.arguments with
        | Except.ok output =>
          { result := output, state := approval.state, executed := true,
            approvalConsulted := true }
        | Except.error e =>
          { result := "Error: " ++ e, state := approval.state, executed := true,
            approvalConsulted := true }
      | none =>
        { result := "Error: unknown tool '" ++ tool_call.name ++ "'",
          state := approval.state, executed := false, approvalConsulted := true }

/-- One model response: assistant text plus requested tool calls
(`llm::LlmResponse`, with the message content inlined). -/
structure LlmResponse where
  content : String
  tool_calls : List ToolCall

/-- A message of the conversation transcript (`llm::Message`). -/
inductive Message where
  | user (content : String)
  | assistantWithTools (content : String) (tool_calls : List ToolCall)
  | toolResult (tool_call_id : String) (result : String)

/-- Execute the requested calls in request order, threading the sender state
and one approval environment per call (the `for tool_call in &tool_calls`
loop of `agent_loop`). Returns the `(id, result)` pairs in order. -/
def runToolCalls (tools : ToolRegistry) (allowed_tools : Option (List String))
    (envs : Nat → ApprovalEnv) :
    List ToolCall → EventSenderState → Nat →
    List (String × String) × EventSenderState × Nat
  | [], s, envIdx => ([], s, envIdx)
  | tc :: rest, s, envIdx =>
    let out := execute_with_approval tools tc allowed_tools s (envs envIdx)
    let (results, s', envIdx') := runToolCalls tools allowed_tools envs rest out.state (envIdx + 1)
    ((tc.id, out.result) :: results, s', envIdx')

/-- The iteration recursion of `agent_loop` (agents/runner.rs), indexed by the
remaining iteration budget. `provider` gives the model's response for each
iteration (an `Except.error` models a failed chat call); `envs` supplies the
approval environment of each successive approval check. Telemetry emissions
and the inter-iteration delay do not affect control flow and are omitted. -/
def agentLoopAux (agent_name : String) (provider : Nat → Except String LlmResponse)
    (tools : ToolRegistry) (allowed_tools : Option (List String))
    (envs : Nat → ApprovalEnv) (max_iterations : Nat) :
    Nat → Nat → List Message → EventSenderState → Nat → Except String String
  | 0, _, _, _, _ =>
    Except.error (agent_name ++ " agent exceeded maximum iterations (" ++
      toString max_iterations ++ ")")
  | remaining + 1, iteration, messages, s, envIdx =>
    match provider iteration with
    | Except.error _ => Except.error (agent_name ++ " agent: LLM chat failed")
    | Except.ok response =>
      if response.tool_calls.isEmpty then
        Except.ok response.content
      else
        let (results, s', envIdx') :=
          runToolCalls tools allowed_tools envs response.tool_calls s envIdx
        let messages' :=
          (messages ++ [Message.assistantWithTools response.content response.tool_calls]) ++
            results.map (fun r => Message.toolResult r.1 r.2)
        agentLoopAux agent_name provider tools allowed_tools envs max_iterations
          remaining (iteration + 1) messages' s' envIdx'

/-- Translation of `agent_loop` (agents/runner.rs): iterate up to
`max_iterations` model round-trips, executing requested tools in order, and
fail with the iteration-exceeded error when the budget is exhausted. -/
def agent_loop (agent_name : String) (messages : List Message)
    (provider : Nat → Except String LlmResponse) (tools : ToolRegistry)
    (allowed_tools : Option (List String)) (max_iterations : Nat)
    (envs : Nat → ApprovalEnv) (s : EventSenderState) : Except String String :=
  agentLoopAux agent_name provider tools allowed_tools envs max_iterations
    max_iterations 0 messages s 0

/-! ## Event delivery over the bounded channel (`event.rs`, `dev_killer.rs`) -/

/-- Status of a completed run (`event.rs::RunStatus`). -/
inductive RunStatus where
  | Success
  | Failed (error : String)
deriving DecidableEq

/-- The events that travel over the run's channel, reduced to what delivery
semantics distinguish: the run-completion notification versus everything
else (telemetry, approval requests, ...). -/
inductive ChannelEvent where
  | RunCompleted (status : RunStatus)
  | OtherEvent (tag : String)
deriving DecidableEq

/-- The bounded mpsc channel between the run and its consumer: a capacity
and the queue of events sent but not yet received. -/
structure BoundedChannel where
  capacity : Nat
  queue : List ChannelEvent

/-- Model of `EventSender::emit` (`try_send`): enqueue when capacity remains,
silently drop the event when the channel is full. -/
def emitTrySend (c : BoundedChannel) (e : ChannelEvent) : BoundedChannel :=
  if c.queue.length < c.capacity then { c with queue := c.queue ++ [e] } else c

/-- Model of `EventSender::emit_blocking` (`send(..).await`): wait for
capacity, so the event is always enqueued for the consumer. -/
def emitBlockingSend (c : BoundedChannel) (e : ChannelEvent) : BoundedChannel :=
  { c with queue := c.queue ++ [e] }

/-- Translation of the run-completion notification in `DevKiller::run`
(dev_killer.rs): on success and on failure alike, the `RunCompleted` event is
emitted with `events.emit` — the best-effort `try_send` tier. -/
def runCompletionNotify (c : BoundedChannel) (result : Except String String) : BoundedChannel :=
  match result with
  | Except.ok _ => emitTrySend c (ChannelEvent.RunCompleted RunStatus.Success)
  | Except.error e => emitTrySend c (ChannelEvent.RunCompleted (RunStatus.Failed e))

/-- A channel whose 256 capacity slots are all occupied by unread telemetry
at the moment the run finishes (`EVENT_CHANNEL_CAPACITY = 256`). -/
def fullEventChannel : BoundedChannel :=
  { capacity := 256, queue := List.replicate 256 (ChannelEvent.OtherEvent "telemetry") }

/-! ## Pipeline orchestrator (`pipeline.rs`) -/

/-- Phase in the orchestration workflow (`session/state.rs::SessionPhase`). -/
inductive SessionPhase where
  | NotStarted
  | Planning
  | Implementing
  | Testing
  | Reviewing
  | Completed
deriving DecidableEq, BEq

/-- One pipeline step, reduced to the fields the orchestrator's control flow
reads: name, phase tag and review flag. Prompt, allow-list, budget and task
formatter only shape the text each execution produces, which the step
oracle below supplies. -/
structure PipelineStep where
  name : String
  phase : SessionPhase
  is_review : Bool

/-- A configurable agent pipeline (`pipeline.rs::Pipeline`). -/
structure Pipeline where
  steps : List PipelineStep
  max_review_iterations : Nat

/-- Insert into the step-output map, overwriting an existing entry
(`HashMap::insert`), represented as an association list. -/
def insertOutput (outputs : List (String × String)) (key value : String) :
    List (String × String) :=
  if outputs.any (fun p => p.1 == key) then
    outputs.map (fun p => if p.1 == key then (key, value) else p)
  else
    outputs ++ [(key, value)]

/-- Look up a step output by name. -/
def lookupOutput (outputs : List (String × String)) (key : String) : Option String :=
  (outputs.find? (fun p => p.1 == key)).map (fun p => p.2)

/-- ASCII model of `capitalize` (pipeline.rs). -/
def capitalize (s : String) : String :=
  match s.data with
  | [] => ""
  | c :: rest => String.mk (asciiUpperChar c :: rest)

/-- Translation of `format_success_output` (pipeline.rs), with the step
outputs traversed in association-list order (the Rust `HashMap` iterates in
an unspecified order). -/
def format_success_output (original_task : String)
    (outputs : List (String × String)) : String :=
  (outputs.foldl
    (fun acc p => acc ++ "\n\n## " ++ capitalize p.1 ++ "\n" ++ p.2)
    ("# Task Completed\n\n## Original Task\n" ++ original_task)) ++
    "\n\n---\nStatus: SUCCESS"

/-- The "needs manual review" transcript returned when the review budget is
exhausted without approval (pipeline.rs). -/
def needsManualReviewText (task : String) (max_review_iterations : Nat) : String :=
  "# Task Incomplete\n\n## Original Task\n" ++ task ++
    "\n\nThe task could not be completed after " ++ toString max_review_iterations ++
    " review iterations.\nPlease review the implementation manually.\n\n---\nStatus: NEEDS_MANUAL_REVIEW"

/-- A step-execution oracle: the outcome of running the step at pipeline
index `i` for the `k`-th time. It stands for `execute_step`, whose output is
produced by the model capability behind `agent_loop`; an `Except.error`
models a failed step. Quantifying theorems over all oracles covers every
provider behaviour, including dependence on the evolving context. -/
def StepOracle := Nat → Nat → Except String String

/-- Execute the steps at the given pipeline indices in order, inserting each
output into the context under the step's name and recording each execution
in the trace (the sequential step loops of `execute_pipeline`). The trace
lists the pipeline index of every execution, so `trace.count i` is how often
step `i` has run. -/
def execSeq (oracle : StepOracle) (steps : List PipelineStep) :
    List Nat → List (String × String) → List Nat →
    Except String (List (String × String)) × List Nat
  | [], ctx, trace => (Except.ok ctx, trace)
  | i :: rest, ctx, trace =>
    match oracle i (trace.count i) with
    | Except.error e => (Except.error e, trace ++ [i])
    | Except.ok output =>
      let stepName := match steps[i]? with
        | some st => st.name
        | none => ""
      execSeq oracle steps rest (insertOutput ctx stepName output) (trace ++ [i])

/-- The review loop of `execute_pipeline` (pipeline.rs), indexed by the
remaining review iterations. Each pass runs the review step; on approval it
returns the success transcript, otherwise — while iterations remain — it
stores the review text under `review_feedback` and re-runs the Implementing
and Testing steps; with the budget exhausted it returns the needs-manual
transcript. -/
def reviewLoop (oracle : StepOracle) (steps : List PipelineStep)
    (max_review_iterations : Nat) (reviewIdx : Nat) (reviewName : String)
    (rerunIdxs : List Nat) (task : String) :
    Nat → List (String × String) → List Nat → Except String String × List Nat
  | 0, _, trace => (Except.ok (needsManualReviewText task max_review_iterations), trace)
  | remaining + 1, ctx, trace =>
    match oracle reviewIdx (trace.count reviewIdx) with
    | Except.error e => (Except.error e, trace ++ [reviewIdx])
    | Except.ok review_output =>
      let trace' := trace ++ [reviewIdx]
      if is_review_approved review_output then
        (Except.ok (format_success_output task (insertOutput ctx reviewName review_output)),
          trace')
      else if remaining > 0 then
        let ctx' := insertOutput ctx "review_feedback" review_output
        match execSeq oracle steps rerunIdxs ctx' trace' with
        | (Except.error e, trace'') => (Except.error e, trace'')
        | (Except.ok ctx'', trace'') =>
          reviewLoop oracle steps max_review_iterations reviewIdx reviewName
            rerunIdxs task remaining ctx'' trace''
      else
        reviewLoop oracle steps max_review_iterations reviewIdx reviewName
          rerunIdxs task remaining ctx trace'

/-- Translation of `execute_pipeline` (pipeline.rs): run every step before
the review step in order, then — when a review step exists — run the bounded
review loop, otherwise return the last step's output. Besides the transcript
result it returns the trace of executed step indices. -/
def execute_pipeline (oracle : StepOracle) (pipeline : Pipeline) (task : String) :
    Except String String × List Nat :=
  let reviewIdx? := pipeline.steps.findIdx? (fun st => st.is_review)
  let steps_before_review := match reviewIdx? with
    | some i => i
    | none => pipeline.steps.length
  let beforeIdxs := List.range steps_before_review
  match execSeq oracle pipeline.steps beforeIdxs [] [] with
  | (Except.error e, trace) => (Except.error e, trace)
  | (Except.ok ctx, trace) =>
    match reviewIdx? with
    | some reviewIdx =>
      let reviewName := match pipeline.steps[reviewIdx]? with
        | some st => st.name
        | none => ""
      let rerunIdxs := beforeIdxs.filter (fun i =>
        match pipeline.steps[i]? with
        | some st => st.phase == SessionPhase.Implementing || st.phase == SessionPhase.Testing
        | none => false)
      reviewLoop oracle pipeline.steps pipeline.max_review_iterations reviewIdx
        reviewName rerunIdxs task pipeline.max_review_iterations ctx trace
    | none =>
      let lastName := match pipeline.steps[steps_before_review - 1]? with
        | some st => st.name
        | none => ""
      (Except.ok ((lookupOutput ctx lastName).getD ""), trace)

/-! ## Session state and portable sessions (`session/state.rs`) -/

/-- Status of a session (`session/state.rs::SessionStatus`). -/
inductive SessionStatus where
  | Pending
  | InProgress
  | Completed
  | Failed
  | Interrupted
deriving DecidableEq

/-- A transcript message as persisted with the session; the engine treats it
opaquely during export/import. -/
structure SessionMessage where
  role : String
  content : String
deriving DecidableEq

/-- Session state for persistence (`session/state.rs::SessionState`);
timestamps are abstract instants. -/
structure SessionState where
  id : String
  task : String
  messages : List SessionMessage
  status : SessionStatus
  phase : SessionPhase
  created_at : Nat
  updated_at : Nat
  working_dir : String
  error : Option String
  project_id : Option String
  project_relative_dir : Option String

/-- A portable session for export/import (`session/state.rs::PortableSession`). -/
structure PortableSession where
  version : Nat
  original_id : String
  task : String
  messages : List SessionMessage
  status : SessionStatus
  phase : SessionPhase
  project_id : Option String
  project_relative_dir : Option String
  created_at : Nat
  exported_at : Nat
  error : Option String

/-- Current portable-session schema version. -/
def CURRENT_VERSION : Nat := 1

/-- Translation of `PortableSession::from_session`; `now` is the export
instant (`Utc::now()`). -/
def PortableSession.from_session (now : Nat) (session : SessionState) : PortableSession :=
  { version := CURRENT_VERSION
    original_id := session.id
    task := session.task
    messages := session.messages
    status := session.status
    phase := session.phase
    project_id := session.project_id
    project_relative_dir := session.project_relative_dir
    created_at := session.created_at
    exported_at := now
    error := session.error }

/-- Translation of `PortableSession::into_session`: assign the freshly
generated id (`Uuid::new_v4`, supplied here by the caller's generator),
force status `Interrupted`, and resolve the working directory from the
caller's input or the current directory at import time. -/
def PortableSession.into_session (p : PortableSession) (freshId : String)
    (now : Nat) (currentDir : String) (working_dir : Option String) : SessionState :=
  { id := freshId
    task := p.task
    messages := p.messages
    status := SessionStatus.Interrupted
    phase := p.phase
    created_at := p.created_at
    updated_at := now
    working_dir := working_dir.getD currentDir
    error := p.error
    project_id := p.project_id
    project_relative_dir := p.project_relative_dir }

/-! ## Theorems -/

/-- C5: for every review text, the approval decision of `is_review_approved`
equals the specification's reference definition: the first line whose
trimmed, case-folded form is exactly "VERDICT: APPROVED" or
"VERDICT: NEEDS_WORK" decides, and with no marker line the text is approved
iff its lowercase form contains "approved" and not "needs_work". -/
theorem verdict_parse_matches_spec (review : String) :
    is_review_approved review = reviewVerdictSpec review := by
  unfold is_review_approved reviewVerdictSpec
  rw [reviewVerdictScan_eq_findSome]

/-- C3: a path containing a parent-directory component is denied by
`validate_path`, and the denial happens before any filesystem access: the
outcome is the same constant denial under every filesystem oracle (and every
policy), so no canonicalization is consulted. -/
theorem validate_path_denies_traversal (fs fs' : FsOracle) (path : String)
    (policy policy' : Policy)
    (h : (rustComponents path).contains PathComponent.parentDir = true) :
    validate_path fs path policy =
      Except.error "path traversal detected: '..' is not allowed in paths" ∧
    validate_path fs path policy = validate_path fs' path policy' := by
  unfold validate_path
  simp [h]

/-- Witness filesystem oracle that resolves nothing. -/
def fsNone : FsOracle := { canonicalize := fun _ => none, home := none }

/-- Witness filesystem oracle that resolves every path to itself. -/
def fsIdent : FsOracle := { canonicalize := fun p => some p, home := some "/home/u" }

theorem validate_path_denies_traversal_witness :
    (rustComponents "a/../etc/passwd").contains PathComponent.parentDir = true ∧
    (validate_path fsNone "a/../etc/passwd" {} =
      Except.error "path traversal detected: '..' is not allowed in paths" ∧
    validate_path fsNone "a/../etc/passwd" {} =
      validate_path fsIdent "a/../etc/passwd" { deny_paths := ["/"] }) :=
  ⟨by decide,
    validate_path_denies_traversal fsNone fsIdent "a/../etc/passwd" {}
      { deny_paths := ["/"] } (by decide)⟩

/-- C7: once a tool name is in the always-approved set, every approval check
for it returns `Approved` immediately — the state is unchanged and no
approval-request event is emitted — under every approval mode and every
consumer behaviour. -/
theorem always_approved_is_idempotent (s : EventSenderState) (tool_name : String)
    (arguments : JsonValue) (env : ApprovalEnv)
    (h : s.always_approved.contains tool_name = true) :
    request_tool_approval s tool_name arguments env =
      { result := ApprovalResult.Approved, state := s, requested := false } := by
  unfold request_tool_approval
  have h' : tool_name ∈ s.always_approved := List.mem_of_elem_eq_true h
  simp [h']

/-- Witness sender state: an attached channel, ask-everything mode, and
"shell" already approved with "always". -/
def senderShellAlways : EventSenderState :=
  { active := true, mode := ApprovalMode.ApproveAll, always_approved := ["shell"] }

theorem always_approved_is_idempotent_witness :
    senderShellAlways.always_approved.contains "shell" = true ∧
    request_tool_approval senderShellAlways "shell" "\x7b\x7d"
        { sendOk := true, reply := ReplyOutcome.deny "no" } =
      { result := ApprovalResult.Approved, state := senderShellAlways, requested := false } :=
  ⟨by decide,
    always_approved_is_idempotent senderShellAlways "shell" "\x7b\x7d"
      { sendOk := true, reply := ReplyOutcome.deny "no" } (by decide)⟩

/-- C10: when the mode requires asking, the tool is not always-approved and a
channel is attached, a failed send of the approval request (receiver
dropped) auto-approves the call, whereas an explicit deny, a dropped reply
slot, and a timeout each deny with their distinct reasons. -/
theorem closed_channel_auto_approves (s : EventSenderState) (tool_name : String)
    (arguments : JsonValue)
    (h1 : s.always_approved.contains tool_name = false)
    (h2 : needsApproval s.mode tool_name arguments = true)
    (h3 : s.active = true) :
    (∀ env : ApprovalEnv, env.sendOk = false →
      (request_tool_approval s tool_name arguments env).result = ApprovalResult.Approved) ∧
    (∀ reason,
      (request_tool_approval s tool_name arguments
          { sendOk := true, reply := ReplyOutcome.deny reason }).result =
        ApprovalResult.Denied
          ("Tool '" ++ tool_name ++ "' was denied by the user: " ++ reason)) ∧
    (request_tool_approval s tool_name arguments
        { sendOk := true, reply := ReplyOutcome.dropped }).result =
      ApprovalResult.Denied
        ("Tool '" ++ tool_name ++ "' was denied: approval response not received") ∧
    (request_tool_approval s tool_name arguments
        { sendOk := true, reply := ReplyOutcome.timedOut }).result =
      ApprovalResult.Denied
        ("Tool '" ++ tool_name ++ "' was denied: approval timed out after 60s") := by
  have h1' : tool_name ∉ s.always_approved := by
    simpa using h1
  refine ⟨?_, ?_, ?_, ?_⟩
  · intro env h4
    unfold request_tool_approval
    simp [h1', h2, h3, h4]
  · intro reason
    unfold request_tool_approval
    simp [h1', h2, h3]
  · unfold request_tool_approval
    simp [h1', h2, h3]
  · unfold request_tool_approval
    simp [h1', h2, h3]

/-- Witness sender state: an attached channel, ask-everything mode, nothing
always-approved yet. -/
def senderAskAll : EventSenderState :=
  { active := true, mode := ApprovalMode.ApproveAll, always_approved := [] }

theorem closed_channel_auto_approves_witness :
    senderAskAll.always_approved.contains "shell" = false ∧
    needsApproval senderAskAll.mode "shell" "\x7b\x7d" = true ∧
    senderAskAll.active = true ∧
    (request_tool_approval senderAskAll "shell" "\x7b\x7d"
        { sendOk := false, reply := ReplyOutcome.approve }).result =
      ApprovalResult.Approved ∧
    (request_tool_approval senderAskAll "shell" "\x7b\x7d"
        { sendOk := true, reply := ReplyOutcome.timedOut }).result =
      ApprovalResult.Denied "Tool 'shell' was denied: approval timed out after 60s" := by
  have h := closed_channel_auto_approves senderAskAll "shell" "\x7b\x7d"
    (by decide) (by decide) (by decide)
  exact ⟨by decide, by decide, by decide,
    h.1 { sendOk := false, reply := ReplyOutcome.approve } rfl, h.2.2.2⟩

/-- C9: exporting a session and importing the result yields a session whose
status is `Interrupted`, whose id is the freshly generated one (hence
distinct from the original whenever the generator produces a new id), and
whose message transcript and task text are unchanged. -/
theorem portable_session_roundtrip (session : SessionState) (exportNow importNow : Nat)
    (freshId currentDir : String) (working_dir : Option String) :
    ((PortableSession.from_session exportNow session).into_session freshId importNow
        currentDir working_dir).status = SessionStatus.Interrupted ∧
    ((PortableSession.from_session exportNow session).into_session freshId importNow
        currentDir working_dir).id = freshId ∧
    (freshId ≠ session.id →
      ((PortableSession.from_session exportNow session).into_session freshId importNow
          currentDir working_dir).id ≠ session.id) ∧
    ((PortableSession.from_session exportNow session).into_session freshId importNow
        currentDir working_dir).messages = session.messages ∧
    ((PortableSession.from_session exportNow session).into_session freshId importNow
        currentDir working_dir).task = session.task :=
  ⟨rfl, rfl, fun h => h, rfl, rfl⟩

/-- Witness session for the export/import round-trip. -/
def sampleSession : SessionState :=
  { id := "original-id", task := "fix the bug",
    messages := [{ role := "user", content := "fix the bug" }],
    status := SessionStatus.InProgress, phase := SessionPhase.Implementing,
    created_at := 3, updated_at := 7, working_dir := "/work",
    error := none, project_id := some "proj", project_relative_dir := some "sub" }

theorem portable_session_roundtrip_witness :
    ("fresh-id" : String) ≠ sampleSession.id ∧
    ((PortableSession.from_session 10 sampleSession).into_session "fresh-id" 11
        "/elsewhere" none).status = SessionStatus.Interrupted ∧
    ((PortableSession.from_session 10 sampleSession).into_session "fresh-id" 11
        "/elsewhere" none).id ≠ sampleSession.id ∧
    ((PortableSession.from_session 10 sampleSession).into_session "fresh-id" 11
        "/elsewhere" none).messages = sampleSession.messages ∧
    ((PortableSession.from_session 10 sampleSession).into_session "fresh-id" 11
        "/elsewhere" none).task = sampleSession.task := by
  have h := portable_session_roundtrip sampleSession 10 11 "fresh-id" "/elsewhere" none
  exact ⟨by decide, h.1, h.2.2.1 (by decide), h.2.2.2.1, h.2.2.2.2⟩

/-- C1: under a tool allow-list, a requested call naming a tool outside the
list is never executed — `execute_with_approval` returns the not-available
text without consulting approval or running any tool's `execute` — and the
same filter governs the tool schemas presented to the model: every visible
tool's name is in the allow-list. -/
theorem allow_list_blocks_unlisted_tool :
    (∀ (tools : ToolRegistry) (tc : ToolCall) (allowed : List String)
        (s : EventSenderState) (env : ApprovalEnv),
      allowed.contains tc.name = false →
      execute_with_approval tools tc (some allowed) s env =
        { result := "Tool '" ++ tc.name ++ "' is not available to this agent",
          state := s, executed := false, approvalConsulted := false }) ∧
    (∀ (tools : ToolRegistry) (allowed : List String) (t : Tool),
      t ∈ visibleTools tools (some allowed) → allowed.contains t.name = true) := by
  constructor
  · intro tools tc allowed s env h
    have h' : tc.name ∉ allowed := by simpa using h
    unfold execute_with_approval
    simp [h']
  · intro tools allowed t ht
    unfold visibleTools registryAll at ht
    exact (List.mem_filter.mp ht).2

/-- Witness registry: a single read-only tool. -/
def sampleRegistry : ToolRegistry :=
  [{ name := "read_file", description := "Read the contents of a file",
     schema := "\x7b\x7d", exec := fun _ => Except.ok "hello" }]

theorem allow_list_blocks_unlisted_tool_witness :
    (["glob", "grep"] : List String).contains "shell" = false ∧
    execute_with_approval sampleRegistry
        { id := "call_1", name := "shell", arguments := "\x7b\x7d" }
        (some ["glob", "grep"]) senderAskAll
        { sendOk := true, reply := ReplyOutcome.approve } =
      { result := "Tool 'shell' is not available to this agent",
        state := senderAskAll, executed := false, approvalConsulted := false } :=
  ⟨by decide,
    allow_list_blocks_unlisted_tool.1 sampleRegistry
      { id := "call_1", name := "shell", arguments := "\x7b\x7d" }
      ["glob", "grep"] senderAskAll
      { sendOk := true, reply := ReplyOutcome.approve } (by decide)⟩

/-- C8: tool execution never raises a hard failure into the agent loop: an
approved tool whose `execute` errs produces the text `Error: <message>`, an
approved call naming an unregistered tool produces the unknown-tool text,
and whenever the model's next response requests no tools the loop returns
that response successfully — the step does not fail. -/
theorem tool_failure_is_recoverable :
    (∀ (tools : ToolRegistry) (tc : ToolCall) (s : EventSenderState)
        (env : ApprovalEnv) (t : Tool) (e : String),
      registryGet tools tc.name = some t →
      t.exec tc.arguments = Except.error e →
      (request_tool_approval s tc.name tc.arguments env).result = ApprovalResult.Approved →
      (execute_with_approval tools tc none s env).result = "Error: " ++ e) ∧
    (∀ (tools : ToolRegistry) (tc : ToolCall) (s : EventSenderState)
        (env : ApprovalEnv),
      registryGet tools tc.name = none →
      (request_tool_approval s tc.name tc.arguments env).result = ApprovalResult.Approved →
      (execute_with_approval tools tc none s env).result =
        "Error: unknown tool '" ++ tc.name ++ "'") ∧
    (∀ (agent_name : String) (messages : List Message)
        (provider : Nat → Except String LlmResponse) (tools : ToolRegistry)
        (allowed_tools : Option (List String)) (max_iterations : Nat)
        (envs : Nat → ApprovalEnv) (s : EventSenderState)
        (r0 r1 : LlmResponse),
      provider 0 = Except.ok r0 →
      provider 1 = Except.ok r1 →
      r1.tool_calls = [] →
      2 ≤ max_iterations →
      ∃ out, agent_loop agent_name messages provider tools allowed_tools
          max_iterations envs s = Except.ok out) := by
  refine ⟨?_, ?_, ?_⟩
  · intro tools tc s env t e h1 h2 h3
    unfold execute_with_approval
    simp [h1, h2, h3]
  · intro tools tc s env h1 h2
    unfold execute_with_approval
    simp [h1, h2]
  · intro agent_name messages provider tools allowed_tools max_iterations envs s
      r0 r1 h0 h1 hcalls hm
    obtain ⟨k, hk⟩ : ∃ k, max_iterations = k + 2 :=
      ⟨max_iterations - 2, by omega⟩
    subst hk
    unfold agent_loop agentLoopAux
    rw [h0]
    by_cases hempty : r0.tool_calls.isEmpty
    · simp only [hempty]
      exact ⟨r0.content, rfl⟩
    · simp only [hempty]
      unfold agentLoopAux
      rw [h1]
      simp [hcalls]

/-- C4: contrary to the stated property, the run-completion path of
`DevKiller::run` emits `RunCompleted` through the best-effort `emit`
(`try_send`) tier, not `emit_blocking`: on a full event channel the
notification is silently dropped (the queue is unchanged and the event is
absent), while the blocking tier — had it been used — would have delivered
it. -/
theorem run_completed_dropped_on_full_channel :
    (runCompletionNotify fullEventChannel (Except.ok "done")).queue =
      fullEventChannel.queue ∧
    ChannelEvent.RunCompleted RunStatus.Success ∉
      (runCompletionNotify fullEventChannel (Except.ok "done")).queue ∧
    ChannelEvent.RunCompleted RunStatus.Success ∈
      (emitBlockingSend fullEventChannel
        (ChannelEvent.RunCompleted RunStatus.Success)).queue := by
  have hfull : ¬ fullEventChannel.queue.length < fullEventChannel.capacity := by
    simp only [fullEventChannel, List.length_replicate]
    omega
  have hdrop : runCompletionNotify fullEventChannel (Except.ok "done") = fullEventChannel := by
    show emitTrySend fullEventChannel _ = fullEventChannel
    unfold emitTrySend
    rw [if_neg hfull]
  refine ⟨by rw [hdrop], ?_, ?_⟩
  · rw [hdrop]
    show ChannelEvent.RunCompleted RunStatus.Success ∉
      List.replicate 256 (ChannelEvent.OtherEvent "telemetry")
    rw [List.mem_replicate]
    exact fun h => ChannelEvent.noConfusion h.2
  · unfold emitBlockingSend
    simp

/-- When every step execution yields an output, `execSeq` succeeds and
appends exactly the executed indices to the trace. -/
theorem execSeq_ok (oracle : StepOracle) (steps : List PipelineStep)
    (hok : ∀ i k, ∃ t, oracle i k = Except.ok t) :
    ∀ (idxs : List Nat) (ctx : List (String × String)) (trace : List Nat),
    ∃ ctx', execSeq oracle steps idxs ctx trace = (Except.ok ctx', trace ++ idxs) := by
  intro idxs
  induction idxs with
  | nil => intro ctx trace; exact ⟨ctx, by simp [execSeq]⟩
  | cons i rest ih =>
    intro ctx trace
    obtain ⟨t, ht⟩ := hok i (trace.count i)
    obtain ⟨ctx', hc⟩ := ih
      (insertOutput ctx (match steps[i]? with | some st => st.name | none => "") t)
      (trace ++ [i])
    refine ⟨ctx', ?_⟩
    unfold execSeq
    rw [ht]
    show execSeq oracle steps rest
        (insertOutput ctx (match steps[i]? with | some st => st.name | none => "") t)
        (trace ++ [i]) = (Except.ok ctx', trace ++ i :: rest)
    rw [hc]
    simp

/-- When every step execution yields an output and every review output is
not approved, the review loop runs the review step once per remaining
iteration and ends in the needs-manual-review transcript. -/
theorem reviewLoop_needs_manual (oracle : StepOracle) (steps : List PipelineStep)
    (maxR reviewIdx : Nat) (reviewName : String) (rerunIdxs : List Nat) (task : String)
    (hok : ∀ i k, ∃ t, oracle i k = Except.ok t)
    (hrev : ∀ k t, oracle reviewIdx k = Except.ok t → is_review_approved t = false)
    (hsub : ∀ j ∈ rerunIdxs, j ≠ reviewIdx) :
    ∀ (r : Nat) (ctx : List (String × String)) (trace : List Nat),
    ∃ trace',
      reviewLoop oracle steps maxR reviewIdx reviewName rerunIdxs task r ctx trace =
        (Except.ok (needsManualReviewText task maxR), trace') ∧
      trace'.count reviewIdx = trace.count reviewIdx + r := by
  intro r
  induction r with
  | zero => intro ctx trace; exact ⟨trace, rfl, by simp⟩
  | succ r ih =>
    intro ctx trace
    obtain ⟨t, ht⟩ := hok reviewIdx (trace.count reviewIdx)
    have happ : is_review_approved t = false := hrev _ _ ht
    have hcount1 : (trace ++ [reviewIdx]).count reviewIdx =
        trace.count reviewIdx + 1 := by
      simp [List.count_append]
    by_cases hr : r > 0
    · obtain ⟨ctx'', hc⟩ := execSeq_ok oracle steps hok rerunIdxs
        (insertOutput ctx "review_feedback" t) (trace ++ [reviewIdx])
      obtain ⟨trace', h1, h2⟩ := ih ctx'' ((trace ++ [reviewIdx]) ++ rerunIdxs)
      refine ⟨trace', ?_, ?_⟩
      · unfold reviewLoop
        rw [ht]
        show (if is_review_approved t = true then _ else
            if r > 0 then
              match execSeq oracle steps rerunIdxs
                  (insertOutput ctx "review_feedback" t) (trace ++ [reviewIdx]) with
              | (Except.error e, trace'') => (Except.error e, trace'')
              | (Except.ok ctx'', trace'') =>
                reviewLoop oracle steps maxR reviewIdx reviewName rerunIdxs task r ctx'' trace''
            else reviewLoop oracle steps maxR reviewIdx reviewName rerunIdxs task r ctx
              (trace ++ [reviewIdx])) =
          (Except.ok (needsManualReviewText task maxR), trace')
        rw [if_neg (by simp [happ]), if_pos hr, hc]
        exact h1
      · rw [h2, List.count_append, hcount1]
        have hzero : rerunIdxs.count reviewIdx = 0 :=
          List.count_eq_zero.mpr (fun hmem => (hsub _ hmem) rfl)
        omega
    · have hr0 : r = 0 := by omega
      subst hr0
      obtain ⟨trace', h1, h2⟩ := ih ctx (trace ++ [reviewIdx])
      refine ⟨trace', ?_, ?_⟩
      · unfold reviewLoop
        rw [ht]
        show (if is_review_approved t = true then _ else
            if 0 > 0 then
              match execSeq oracle steps rerunIdxs
                  (insertOutput ctx "review_feedback" t) (trace ++ [reviewIdx]) with
              | (Except.error e, trace'') => (Except.error e, trace'')
              | (Except.ok ctx'', trace'') =>
                reviewLoop oracle steps maxR reviewIdx reviewName rerunIdxs task 0 ctx'' trace''
            else reviewLoop oracle steps maxR reviewIdx reviewName rerunIdxs task 0 ctx
              (trace ++ [reviewIdx])) =
          (Except.ok (needsManualReviewText task maxR), trace')
        rw [if_neg (by simp [happ]), if_neg hr, h1]
      · rw [h2, hcount1]

/-- C2: with a review step present, if every step execution produces an
output and every review output is non-approved, `execute_pipeline` executes
the review step exactly `max_review_iterations` times and returns the
needs-manual-review transcript as an `ok` result, never looping further. -/
theorem review_exhaustion_returns_needs_manual
    (oracle : StepOracle) (pipeline : Pipeline) (task : String) (reviewIdx : Nat)
    (hri : pipeline.steps.findIdx? (fun st => st.is_review) = some reviewIdx)
    (hok : ∀ i k, ∃ t, oracle i k = Except.ok t)
    (hrev : ∀ k t, oracle reviewIdx k = Except.ok t → is_review_approved t = false) :
    (execute_pipeline oracle pipeline task).1 =
      Except.ok (needsManualReviewText task pipeline.max_review_iterations) ∧
    (execute_pipeline oracle pipeline task).2.count reviewIdx =
      pipeline.max_review_iterations := by
  obtain ⟨ctx, hc⟩ := execSeq_ok oracle pipeline.steps hok
    (List.range reviewIdx) [] []
  have hsub : ∀ j ∈ (List.range reviewIdx).filter (fun i =>
      match pipeline.steps[i]? with
      | some st => st.phase == SessionPhase.Implementing || st.phase == SessionPhase.Testing
      | none => false), j ≠ reviewIdx := by
    intro j hj
    have hj' : j ∈ List.range reviewIdx := List.mem_of_mem_filter hj
    have := List.mem_range.mp hj'
    omega
  obtain ⟨trace', h1, h2⟩ := reviewLoop_needs_manual oracle pipeline.steps
    pipeline.max_review_iterations reviewIdx
    (match pipeline.steps[reviewIdx]? with | some st => st.name | none => "")
    ((List.range reviewIdx).filter (fun i =>
      match pipeline.steps[i]? with
      | some st => st.phase == SessionPhase.Implementing || st.phase == SessionPhase.Testing
      | none => false))
    task hok hrev hsub pipeline.max_review_iterations ctx (List.range reviewIdx)
  have hpipe : execute_pipeline oracle pipeline task =
      (Except.ok (needsManualReviewText task pipeline.max_review_iterations), trace') := by
    unfold execute_pipeline
    simp only [hri]
    rw [hc]
    simp only [List.nil_append]
    exact h1
  have hzero : (List.range reviewIdx).count reviewIdx = 0 :=
    List.count_eq_zero.mpr (by simp)
  rw [hpipe]
  exact ⟨rfl, by rw [h2, hzero]; omega⟩

/-- Witness pipeline with the default plan → code → test → review shape and
a review budget of 3. -/
def defaultShapePipeline : Pipeline :=
  { steps :=
      [{ name := "planner", phase := SessionPhase.Planning, is_review := false },
       { name := "coder", phase := SessionPhase.Implementing, is_review := false },
       { name := "tester", phase := SessionPhase.Testing, is_review := false },
       { name := "reviewer", phase := SessionPhase.Reviewing, is_review := true }],
    max_review_iterations := 3 }

/-- Witness step oracle: every step, the reviewer included, always reports
NEEDS_WORK. -/
def needsWorkOracle : StepOracle := fun _ _ => Except.ok "VERDICT: NEEDS_WORK"

theorem review_exhaustion_returns_needs_manual_witness :
    defaultShapePipeline.steps.findIdx? (fun st => st.is_review) = some 3 ∧
    is_review_approved "VERDICT: NEEDS_WORK" = false ∧
    (execute_pipeline needsWorkOracle defaultShapePipeline "add a feature").1 =
      Except.ok (needsManualReviewText "add a feature" 3) ∧
    (execute_pipeline needsWorkOracle defaultShapePipeline "add a feature").2.count 3 = 3 := by
  have h := review_exhaustion_returns_needs_manual needsWorkOracle defaultShapePipeline
    "add a feature" 3 (by decide) (fun i k => ⟨"VERDICT: NEEDS_WORK", rfl⟩)
    (fun k t ht => by
      injection ht with h'
      subst h'
      decide)
  exact ⟨by decide, by decide, h.1, h.2⟩

/-- A sensitive-path denial inside `validate_sensitive_paths` exists whenever
some sensitive path satisfies the combined predicate. -/
theorem validate_sensitive_paths_err (command : String)
    (h : ∃ s ∈ sensitive_paths,
      (strContains command s &&
        (read_commands.any (fun rc => strContains command rc) ||
          strContains command ("< " ++ s) ||
          strContains command ("<" ++ s))) = true) :
    ∃ msg, validate_sensitive_paths command = Except.error msg := by
  unfold validate_sensitive_paths
  cases hf : sensitive_paths.find? (fun sensitive =>
      strContains command sensitive &&
        (read_commands.any (fun rc => strContains command rc) ||
          strContains command ("< " ++ sensitive) ||
          strContains command ("<" ++ sensitive))) with
  | some s =>
    exact ⟨"access to sensitive path " ++ s ++ " via shell is not allowed", rfl⟩
  | none =>
    exfalso
    obtain ⟨s, hs, hp⟩ := h
    exact absurd hp (by simpa using List.find?_eq_none.mp hf s hs)

/-- Whenever `validate_sensitive_paths` denies, `validate_command` denies too
(whatever the earlier deny-list and destructive-pattern checks produce). -/
theorem validate_command_err_of_sensitive (command : String) (policy : Policy)
    (h : ∃ msg, validate_sensitive_paths command = Except.error msg) :
    ∃ msg, validate_command command policy = Except.error msg := by
  unfold validate_command
  cases h1 : policy.deny_commands.find? (fun denied =>
      strContains (rustToLowercase command) (rustToLowercase denied)) with
  | some d =>
    exact ⟨"command '" ++ d ++ "' is denied by policy", by simp only [h1]⟩
  | none =>
    cases h2 : dangerous_patterns.find? (fun pattern =>
        strContains (rustToLowercase command) (rustToLowercase pattern)) with
    | some p =>
      exact ⟨"command contains dangerous pattern: " ++ p, by simp only [h1, h2]⟩
    | none =>
      obtain ⟨msg, hm⟩ := h
      exact ⟨msg, by simp only [h1, h2]; exact hm⟩

/-- C6: `validate_command` denies every command containing (case-folded) a
policy deny-list entry or a fixed destructive pattern as a substring, denies
every command mentioning a sensitive credential path together with a
file-reading verb or an input redirection from that path, and approves
ordinary commands such as `git status` under the default empty policy. -/
theorem validate_command_denies_dangerous :
    (∀ (command : String) (policy : Policy) (denied : String),
      denied ∈ policy.deny_commands →
      strContains (rustToLowercase command) (rustToLowercase denied) = true →
      ∃ msg, validate_command command policy = Except.error msg) ∧
    (∀ (command : String) (policy : Policy) (pattern : String),
      pattern ∈ dangerous_patterns →
      strContains (rustToLowercase command) (rustToLowercase pattern) = true →
      ∃ msg, validate_command command policy = Except.error msg) ∧
    (∀ (command : String) (policy : Policy) (sensitive rc : String),
      sensitive ∈ sensitive_paths →
      rc ∈ read_commands →
      strContains command sensitive = true →
      strContains command rc = true →
      ∃ msg, validate_command command policy = Except.error msg) ∧
    (∀ (command : String) (policy : Policy) (sensitive : String),
      sensitive ∈ sensitive_paths →
      strContains command sensitive = true →
      (strContains command ("< " ++ sensitive) ||
        strContains command ("<" ++ sensitive)) = true →
      ∃ msg, validate_command command policy = Except.error msg) ∧
    validate_command "git status" {} = Except.ok () := by
  refine ⟨?_, ?_, ?_, ?_, by rfl⟩
  · intro command policy denied hmem hsub
    unfold validate_command
    cases h1 : policy.deny_commands.find? (fun d =>
        strContains (rustToLowercase command) (rustToLowercase d)) with
    | some d =>
      exact ⟨"command '" ++ d ++ "' is denied by policy", by simp only [h1]⟩
    | none =>
      exact absurd hsub (by simpa using List.find?_eq_none.mp h1 denied hmem)
  · intro command policy pattern hmem hsub
    unfold validate_command
    cases h1 : policy.deny_commands.find? (fun d =>
        strContains (rustToLowercase command) (rustToLowercase d)) with
    | some d =>
      exact ⟨"command '" ++ d ++ "' is denied by policy", by simp only [h1]⟩
    | none =>
      cases h2 : dangerous_patterns.find? (fun p =>
          strContains (rustToLowercase command) (rustToLowercase p)) with
      | some p =>
        exact ⟨"command contains dangerous pattern: " ++ p, by simp only [h1, h2]⟩
      | none =>
        exact absurd hsub (by simpa using List.find?_eq_none.mp h2 pattern hmem)
  · intro command policy sensitive rc hs hrc h1 h2
    refine validate_command_err_of_sensitive command policy
      (validate_sensitive_paths_err command ⟨sensitive, hs, ?_⟩)
    have hany : read_commands.any (fun r => strContains command r) = true :=
      List.any_eq_true.mpr ⟨rc, hrc, h2⟩
    rw [h1, hany]
    rfl
  · intro command policy sensitive hs h1 h2
    refine validate_command_err_of_sensitive command policy
      (validate_sensitive_paths_err command ⟨sensitive, hs, ?_⟩)
    rw [h1]
    rcases Bool.or_eq_true_iff.mp h2 with h3 | h3
    · rw [h3]
      simp
    · rw [h3]
      simp

theorem validate_command_denies_dangerous_witness :
    ("~/.ssh" ∈ sensitive_paths ∧ "cat " ∈ read_commands ∧
      strContains "cat ~/.ssh/id_rsa" "~/.ssh" = true ∧
      strContains "cat ~/.ssh/id_rsa" "cat " = true ∧
      ∃ msg, validate_command "cat ~/.ssh/id_rsa" {} = Except.error msg) ∧
    ("sudo rm" ∈ dangerous_patterns ∧
      strContains (rustToLowercase "sudo rm -rf /tmp") (rustToLowercase "sudo rm") = true ∧
      ∃ msg, validate_command "sudo rm -rf /tmp" {} = Except.error msg) ∧
    ("git push" ∈ Policy.deny_commands { deny_commands := ["git push"] } ∧
      ∃ msg, validate_command "git push origin main"
        { deny_commands := ["git push"] } = Except.error msg) :=
  ⟨⟨by decide, by decide, by decide, by decide,
    validate_command_denies_dangerous.2.2.1 "cat ~/.ssh/id_rsa" {} "~/.ssh" "cat "
      (by decide) (by decide) (by decide) (by decide)⟩,
   ⟨by decide, by decide,
    validate_command_denies_dangerous.2.1 "sudo rm -rf /tmp" {} "sudo rm"
      (by decide) (by decide)⟩,
   ⟨by decide,
    validate_command_denies_dangerous.1 "git push origin main"
      { deny_commands := ["git push"] } "git push" (by decide) (by decide)⟩⟩

/-- Witness sender state corresponding to `EventSender::noop()`: no channel,
auto-approve mode. -/
def senderNoop : EventSenderState :=
  { active := false, mode := ApprovalMode.AutoApprove, always_approved := [] }

/-- Witness approval environments: a live consumer that always approves. -/
def approveEnvs : Nat → ApprovalEnv :=
  fun _ => { sendOk := true, reply := ReplyOutcome.approve }

/-- Witness model script: first response requests an unregistered tool, the
second requests nothing. -/
def scriptedProvider : Nat → Except String LlmResponse :=
  fun n =>
    if n == 0 then
      Except.ok
        { content := "using a tool",
          tool_calls := [{ id := "call_1", name := "frobnicate", arguments := "\x7b\x7d" }] }
    else
      Except.ok { content := "all done", tool_calls := [] }

theorem tool_failure_is_recoverable_witness :
    (registryGet sampleRegistry "frobnicate" = none ∧
      (request_tool_approval senderNoop "frobnicate" "\x7b\x7d"
        (approveEnvs 0)).result = ApprovalResult.Approved ∧
      (execute_with_approval sampleRegistry
          { id := "call_1", name := "frobnicate", arguments := "\x7b\x7d" }
          none senderNoop (approveEnvs 0)).result =
        "Error: unknown tool 'frobnicate'") ∧
    (∃ out, agent_loop "coder" [] scriptedProvider sampleRegistry none 2
      approveEnvs senderNoop = Except.ok out) :=
  ⟨⟨rfl, rfl,
    tool_failure_is_recoverable.2.1 sampleRegistry
      { id := "call_1", name := "frobnicate", arguments := "\x7b\x7d" }
      senderNoop (approveEnvs 0) rfl rfl⟩,
   tool_failure_is_recoverable.2.2 "coder" [] scriptedProvider sampleRegistry
     none 2 approveEnvs senderNoop
     { content := "using a tool",
       tool_calls := [{ id := "call_1", name := "frobnicate", arguments := "\x7b\x7d" }] }
     { content := "all done", tool_calls := [] }
     (by rfl) (by rfl) rfl (by omega)⟩

end DevKiller
